import Mathlib

/-!
Verification development for the chunk-translate-merge pipeline of the
accessbility4all backend (src/backend/services/text_chunker.py and
src/backend/services/llm_tts.py).

Python strings are embedded as lists of characters (PyStr).  Python
exceptions are embedded with an explicit error type (PyErr) and
Except-valued functions.  External collaborators (the LLM provider, the
speech engine) are oracles passed as function arguments.

Modelling notes on the approximations used here:
- Whitespace is the ASCII whitespace set recognised by the Python regex
  class backslash-s and by str.strip; non-ASCII Unicode whitespace is not
  modelled (none of the verified properties depends on it).
- JSON numbers are modelled as integers only; numerals with a fractional
  part or an exponent (and the non-standard NaN and Infinity tokens) make
  the embedded decoder fail where CPython would produce a float.  All
  universally quantified theorems about the normalizer state their
  hypotheses through the embedded decoder, so this restriction narrows,
  and never falsifies, the statements.
- The exact message text carried by TypeError and by provider exceptions
  is not semantically relevant to any claim and is given representative
  values; the one message that the source constructs explicitly and a
  claim mentions (the empty-text synthesis error) is kept verbatim.
-/

/-- Python str embedded as a list of characters. -/
abbrev PyStr := List Char

/-- ASCII whitespace, as matched by the Python regex class backslash-s and
stripped by str.strip: space, tab, newline, carriage return, vertical tab,
form feed. -/
def isPyWs (c : Char) : Bool :=
  c = ' ' || c = '\t' || c = '\n' || c = '\r' || c = Char.ofNat 11 || c = Char.ofNat 12

/-- Python str.strip with no argument: remove leading and trailing
whitespace. -/
def pyStrip (s : PyStr) : PyStr :=
  ((s.dropWhile isPyWs).reverse.dropWhile isPyWs).reverse

/-- True when the list contains at least one non-whitespace character;
equivalent to pyStrip being non-empty (proved below). -/
def containsNonWs (s : PyStr) : Bool := s.any (fun c => !(isPyWs c))

/-- dropWhile never lengthens a list (used for termination of the
splitters). -/
theorem dropWhile_length_le (p : Char → Bool) (l : List Char) :
    (l.dropWhile p).length ≤ l.length := by
  induction l with
  | nil => simp [List.dropWhile]
  | cons c rest ih =>
    by_cases h : p c
    · simp only [List.dropWhile_cons_of_pos h, List.length_cons]
      omega
    · simp [List.dropWhile_cons_of_neg h]

/-! ## TextChunker (src/backend/services/text_chunker.py)

The chunk-size limit and enable toggle are read from the environment in
`TextChunker.__init__`; they are the two fields of this structure. -/

structure TextChunker where
  max_chunk_size : Nat
  enable_chunking : Bool
deriving DecidableEq

/-- Helper for the paragraph splitter: the head of the remaining input is a
newline. -/
def firstIsNl (s : List Char) : Bool :=
  match s with
  | [] => false
  | c :: _ => c = '\n'

/-- re.split of the pattern backslash-n backslash-n plus: cut the input at
every maximal run of two or more newlines, consuming the run.  `acc` holds
the characters of the current piece in reverse order. -/
def splitParasAux (s : List Char) (acc : List Char) : List (List Char) :=
  match s with
  | [] => [acc.reverse]
  | c :: rest =>
    if c = '\n' ∧ firstIsNl rest then
      acc.reverse :: splitParasAux (rest.dropWhile (fun d => d = '\n')) []
    else
      splitParasAux rest (c :: acc)
termination_by s.length
decreasing_by
  all_goals simp only [List.length_cons]
  · exact Nat.lt_succ_of_le (dropWhile_length_le _ _)
  · exact Nat.lt_succ_self _

/-- re.split on runs of two or more newlines. -/
def splitParagraphs (s : List Char) : List (List Char) := splitParasAux s []

/-- A sentence-boundary character: period, exclamation mark or question
mark. -/
def boundaryChar (c : Char) : Bool := c = '.' || c = '!' || c = '?'

/-- Helper for the sentence splitter: the head of the remaining input is
whitespace. -/
def firstIsWs (s : List Char) : Bool :=
  match s with
  | [] => false
  | c :: _ => isPyWs c

/-- re.split of the pattern lookbehind-[.!?] backslash-s plus: cut after
every boundary character that is followed by whitespace, consuming the
whitespace run.  The boundary character stays with the piece on its left
(the regex uses a lookbehind). -/
def splitSentencesAux (s : List Char) (acc : List Char) : List (List Char) :=
  match s with
  | [] => [acc.reverse]
  | c :: rest =>
    if boundaryChar c ∧ firstIsWs rest then
      (acc.reverse ++ [c]) :: splitSentencesAux (rest.dropWhile isPyWs) []
    else
      splitSentencesAux rest (c :: acc)
termination_by s.length
decreasing_by
  all_goals simp only [List.length_cons]
  · exact Nat.lt_succ_of_le (dropWhile_length_le _ _)
  · exact Nat.lt_succ_self _

/-- re.split at sentence boundaries, as in `_chunk_by_sentences`. -/
def splitSentences (s : List Char) : List (List Char) := splitSentencesAux s []

/-- The greedy sentence-packing loop of `_chunk_by_sentences`: a sentence is
appended to the current chunk (with a single space) when the result stays
within `max`; otherwise the current chunk is closed (if non-empty) and the
sentence starts a new one.  `final` accumulates the closed chunks. -/
def packSentences (max : Nat) (sentences : List PyStr) (current : PyStr)
    (final : List PyStr) : List PyStr :=
  match sentences with
  | [] => if current ≠ [] then final ++ [current] else final
  | s :: ss =>
    if current.length + s.length + 1 ≤ max then
      packSentences max ss (if current ≠ [] then current ++ (' ' :: s) else s) final
    else
      packSentences max ss s (if current ≠ [] then final ++ [current] else final)

/-- `TextChunker._chunk_by_paragraphs`: strip the text, split it on blank
lines, strip each paragraph and drop the empty ones.  Oversized paragraphs
are kept as they are (both branches of the source append the paragraph). -/
def _chunk_by_paragraphs (text : PyStr) : List PyStr :=
  (splitParagraphs (pyStrip text)).filterMap
    (fun para => let p := pyStrip para; if p = [] then none else some p)

/-- `TextChunker._chunk_by_sentences`: keep chunks already within the limit,
split the oversized ones at sentence boundaries and greedily repack. -/
def _chunk_by_sentences (self : TextChunker) (chunks : List PyStr) : List PyStr :=
  (chunks.map (fun chunk =>
    if chunk.length ≤ self.max_chunk_size then [chunk]
    else packSentences self.max_chunk_size (splitSentences chunk) [] [])).flatten

/-- `TextChunker.chunk_text`: return the whole text as one chunk when
chunking is disabled or the text already fits; otherwise split by
paragraphs and then by sentences. -/
def chunk_text (self : TextChunker) (text : PyStr) : List PyStr :=
  if self.enable_chunking = false ∨ text.length ≤ self.max_chunk_size then [text]
  else _chunk_by_sentences self (_chunk_by_paragraphs text)

/-- Python str.join over a list of pieces. -/
def joinSep (sep : PyStr) : List PyStr → PyStr
  | [] => []
  | [x] => x
  | x :: xs => x ++ sep ++ joinSep sep xs

/-- The default merge separator, a paragraph break. -/
def defaultSeparator : PyStr := '\n' :: ['\n']

/-- `TextChunker.merge_chunks`: join the stripped chunks with the separator,
skipping chunks that strip to empty. -/
def merge_chunks (chunks : List PyStr) (separator : PyStr) : PyStr :=
  joinSep separator (chunks.filterMap
    (fun chunk => let c := pyStrip chunk; if c = [] then none else some c))

/-! ## JSON values and the decoder (json.loads)

The decoder is the standard strict-mode JSON grammar, with the numeric
restriction described in the header comment.  Object fields are kept as an
association list in source order; lookups take the value of the LAST
occurrence of a key, as a Python dict built by json.loads does. -/

inductive Json where
  | null : Json
  | bool (b : Bool) : Json
  | num (n : Int) : Json
  | str (s : PyStr) : Json
  | arr (elems : List Json) : Json
  | obj (fields : List (PyStr × Json)) : Json

/-- The opening brace character. -/
def obC : Char := Char.ofNat 123

/-- The closing brace character. -/
def cbC : Char := Char.ofNat 125

/-- The double-quote character. -/
def qe : Char := Char.ofNat 34

/-- The backslash character. -/
def bsC : Char := Char.ofNat 92

/-- Whitespace accepted between JSON tokens. -/
def jsonWs (c : Char) : Bool := c = ' ' || c = '\t' || c = '\n' || c = '\r'

/-- Skip inter-token JSON whitespace. -/
def skipJws (s : PyStr) : PyStr := s.dropWhile jsonWs

/-- Value of a hexadecimal digit. -/
def hexVal (c : Char) : Option Nat :=
  if '0' ≤ c ∧ c ≤ '9' then some (c.toNat - 48)
  else if 'a' ≤ c ∧ c ≤ 'f' then some (c.toNat - 87)
  else if 'A' ≤ c ∧ c ≤ 'F' then some (c.toNat - 55)
  else none

/-- Body of a JSON string (after the opening quote): plain characters, the
standard escapes, and a 4-digit unicode escape; raw control characters are
rejected as in strict mode.  `acc` holds the decoded characters reversed.
Returns the decoded string and the input after the closing quote. -/
def parseStrBody (s : PyStr) (acc : PyStr) : Option (PyStr × PyStr) :=
  match s with
  | [] => none
  | c :: rest =>
    if c = qe then some (acc.reverse, rest)
    else if c = bsC then
      match rest with
      | [] => none
      | e :: r2 =>
        if e = qe then parseStrBody r2 (qe :: acc)
        else if e = bsC then parseStrBody r2 (bsC :: acc)
        else if e = '/' then parseStrBody r2 ('/' :: acc)
        else if e = 'b' then parseStrBody r2 (Char.ofNat 8 :: acc)
        else if e = 'f' then parseStrBody r2 (Char.ofNat 12 :: acc)
        else if e = 'n' then parseStrBody r2 ('\n' :: acc)
        else if e = 'r' then parseStrBody r2 ('\r' :: acc)
        else if e = 't' then parseStrBody r2 ('\t' :: acc)
        else if e = 'u' then
          match r2 with
          | h1 :: h2 :: h3 :: h4 :: r3 =>
            match hexVal h1, hexVal h2, hexVal h3, hexVal h4 with
            | some a, some b, some c3, some d =>
              parseStrBody r3 (Char.ofNat (((a * 16 + b) * 16 + c3) * 16 + d) :: acc)
            | _, _, _, _ => none
          | _ => none
        else none
    else if c.toNat < 32 then none
    else parseStrBody rest (c :: acc)

/-- Numeric value of a digit string. -/
def natOfDigits (ds : PyStr) : Nat :=
  ds.foldl (fun a c => a * 10 + (c.toNat - 48)) 0

/-- An integer JSON numeral: optional minus sign and digits with no
redundant leading zero.  A following fractional part or exponent makes the
token a float, which this model does not cover, so the parse fails there. -/
def parseNumTok (s : PyStr) : Option (Json × PyStr) :=
  let signed := match s with
    | c :: r => if c = '-' then (true, r) else (false, s)
    | [] => (false, s)
  let digits := signed.2.takeWhile Char.isDigit
  let rest := signed.2.dropWhile Char.isDigit
  if digits = [] then none
  else if 2 ≤ digits.length ∧ digits.head? = some '0' then none
  else
    let value : Int := if signed.1 then -(natOfDigits digits : Int) else (natOfDigits digits : Int)
    match rest with
    | c :: _ => if c = '.' ∨ c = 'e' ∨ c = 'E' then none else some (Json.num value, rest)
    | [] => some (Json.num value, rest)

/-- Literal token for true. -/
def litTrue : PyStr := "true".toList

/-- Literal token for false. -/
def litFalse : PyStr := "false".toList

/-- Literal token for null. -/
def litNull : PyStr := "null".toList

mutual

/-- One JSON value starting at the head of `s`; returns the value and the
unconsumed input.  The fuel only bounds recursion depth; `jsonLoads` always
supplies enough. -/
def parseVal (fuel : Nat) (s : PyStr) : Option (Json × PyStr) :=
  match fuel with
  | 0 => none
  | f + 1 =>
    match s with
    | [] => none
    | c :: rest =>
      if c = qe then
        match parseStrBody rest [] with
        | some (str, r) => some (Json.str str, r)
        | none => none
      else if c = obC then
        let s1 := skipJws rest
        match s1 with
        | c2 :: r2 => if c2 = cbC then some (Json.obj [], r2) else parseMembers f s1 []
        | [] => none
      else if c = '[' then
        let s1 := skipJws rest
        match s1 with
        | c2 :: r2 => if c2 = ']' then some (Json.arr [], r2) else parseElems f s1 []
        | [] => none
      else if litTrue.isPrefixOf (c :: rest) then some (Json.bool true, (c :: rest).drop 4)
      else if litFalse.isPrefixOf (c :: rest) then some (Json.bool false, (c :: rest).drop 5)
      else if litNull.isPrefixOf (c :: rest) then some (Json.null, (c :: rest).drop 4)
      else parseNumTok (c :: rest)

/-- Members of a JSON object, positioned at a key. -/
def parseMembers (fuel : Nat) (s : PyStr) (acc : List (PyStr × Json)) :
    Option (Json × PyStr) :=
  match fuel with
  | 0 => none
  | f + 1 =>
    match s with
    | c :: rest =>
      if c = qe then
        match parseStrBody rest [] with
        | some (k, r1) =>
          match skipJws r1 with
          | d :: r3 =>
            if d = ':' then
              match parseVal f (skipJws r3) with
              | some (v, r4) =>
                match skipJws r4 with
                | e :: r6 =>
                  if e = ',' then parseMembers f (skipJws r6) (acc ++ [(k, v)])
                  else if e = cbC then some (Json.obj (acc ++ [(k, v)]), r6)
                  else none
                | [] => none
              | none => none
            else none
          | [] => none
        | none => none
      else none
    | [] => none

/-- Elements of a JSON array, positioned at a value. -/
def parseElems (fuel : Nat) (s : PyStr) (acc : List Json) : Option (Json × PyStr) :=
  match fuel with
  | 0 => none
  | f + 1 =>
    match parseVal f s with
    | some (v, r1) =>
      match skipJws r1 with
      | e :: r2 =>
        if e = ',' then parseElems f (skipJws r2) (acc ++ [v])
        else if e = ']' then some (Json.arr (acc ++ [v]), r2)
        else none
      | [] => none
    | none => none

end

/-- json.loads: parse one JSON document, allowing surrounding whitespace and
nothing else. -/
def jsonLoads (s : PyStr) : Option Json :=
  match parseVal (2 * s.length + 2) (skipJws s) with
  | some (v, rest) => if skipJws rest = [] then some v else none
  | none => none

/-! ## Python-level semantics of decoded values -/

/-- dict.get on the decoded fields: the value of the last occurrence of the
key, as in a dict built by inserting the fields in order. -/
def jGetObj (fields : List (PyStr × Json)) (k : PyStr) : Option Json :=
  match fields with
  | [] => none
  | (k2, v) :: rest =>
    match jGetObj rest k with
    | some v2 => some v2
    | none => if k2 = k then some v else none

/-- dict.get with a default. -/
def jGetD (fields : List (PyStr × Json)) (k : PyStr) (d : Json) : Json :=
  (jGetObj fields k).getD d

/-- Python truthiness of a decoded JSON value. -/
def pyTruthy : Json → Bool
  | Json.null => false
  | Json.bool b => b
  | Json.num n => decide (n ≠ 0)
  | Json.str s => !s.isEmpty
  | Json.arr xs => !xs.isEmpty
  | Json.obj fields => !fields.isEmpty

/-- Truthiness of an optional value (a missing key behaves as None). -/
def pyTruthyOpt (o : Option Json) : Bool := o.elim false pyTruthy

/-- Separator used in Python collection display. -/
def commaSpace : PyStr := ',' :: [' ']

/-- Key-value separator used in Python dict display. -/
def colonSpace : PyStr := ':' :: [' ']

/-- The single-quote character used by Python repr of strings. -/
def sqC : Char := Char.ofNat 39

mutual

/-- Python repr of a decoded JSON value.  The exact escaping and quoting
rules of repr for strings, and the display of duplicate-key objects, are
approximated; no verified property depends on the precise rendering, only
on whether the result strips to empty. -/
def pyReprJson : Json → PyStr
  | Json.null => "None".toList
  | Json.bool true => "True".toList
  | Json.bool false => "False".toList
  | Json.num n => (toString n).toList
  | Json.str s => sqC :: (s ++ [sqC])
  | Json.arr xs => '[' :: (joinSep commaSpace (pyReprList xs) ++ [']'])
  | Json.obj fields => obC :: (joinSep commaSpace (pyReprFields fields) ++ [cbC])

/-- repr of the elements of a list. -/
def pyReprList : List Json → List PyStr
  | [] => []
  | x :: xs => pyReprJson x :: pyReprList xs

/-- repr of the fields of a dict. -/
def pyReprFields : List (PyStr × Json) → List PyStr
  | [] => []
  | (k, v) :: rest =>
    (pyReprJson (Json.str k) ++ colonSpace ++ pyReprJson v) :: pyReprFields rest

end

/-- Python str() of a decoded JSON value: the identity on strings, repr on
everything else. -/
def pyStrJson : Json → PyStr
  | Json.str s => s
  | v => pyReprJson v

/-! ## Python exceptions and the result records of the normalizer -/

/-- The Python exceptions that the embedded code can raise or observe.
`exception` is the generic Exception constructed with a message. -/
inductive PyErr where
  | typeError : PyErr
  | attributeError : PyErr
  | valueError (msg : PyStr) : PyErr
  | timeoutError : PyErr
  | connectionError : PyErr
  | exception (msg : PyStr) : PyErr
deriving DecidableEq

/-- One red flag as produced by `_parse_llm_response`. -/
structure RedFlag where
  quote : PyStr
  risk : PyStr
  severity : PyStr
  worst_case : PyStr
deriving DecidableEq

/-- The dict returned by `_parse_llm_response`. -/
structure ParsedResult where
  simplified_text : PyStr
  red_flags : List RedFlag
deriving DecidableEq

/-! ## Normalizer helpers (src/backend/services/llm_tts.py) -/

/-- A triple of backticks, the markdown fence marker. -/
def fence3 : PyStr := "```".toList

/-- The optional fence language tag. -/
def jsonTag : PyStr := "json".toList

/-- What remains after consuming one fence marker at the head of the input:
the three backticks, an optional json tag, and a maximal whitespace run. -/
def fenceStep (s : PyStr) : PyStr :=
  let r1 := s.drop 3
  let r2 := if jsonTag.isPrefixOf r1 then r1.drop 4 else r1
  r2.dropWhile isPyWs

/-- The scan of the fence regex, fuelled for structural recursion (the fuel
only bounds the number of scan steps; each step consumes at least one
character, so the wrapper always supplies enough): remove every occurrence
of the fence pattern, scanning left to right. -/
def stripFenceAux : Nat → PyStr → PyStr
  | 0, s => s
  | _ + 1, [] => []
  | f + 1, c :: rest =>
    if fence3.isPrefixOf (c :: rest) then stripFenceAux f (fenceStep (c :: rest))
    else c :: stripFenceAux f rest

/-- re.sub of the fence pattern (three backticks, optional json tag, then
any whitespace) with the empty string. -/
def stripFenceMarkers (s : PyStr) : PyStr := stripFenceAux (s.length + 1) s

/-- The scan of str.replace, fuelled like stripFenceAux. -/
def removeTicksAux : Nat → PyStr → PyStr
  | 0, s => s
  | _ + 1, [] => []
  | f + 1, c :: rest =>
    if fence3.isPrefixOf (c :: rest) then removeTicksAux f ((c :: rest).drop 3)
    else c :: removeTicksAux f rest

/-- str.replace of a bare backtick triple with the empty string (applied by
the source after the fence regex). -/
def removeTicks (s : PyStr) : PyStr := removeTicksAux (s.length + 1) s

/-- The `cleaned` value of `_parse_llm_response`: fence markers removed, then
stray backtick triples, then stripped. -/
def cleanedOf (raw : PyStr) : PyStr := pyStrip (removeTicks (stripFenceMarkers raw))

/-- The span matched by the greedy dotall regex brace-dot-star-brace: from
the first opening brace to the last closing brace after it, or none when no
such pair exists. -/
def extractBraceSpan (s : PyStr) : Option PyStr :=
  let t := s.dropWhile (fun c => !(c = obC))
  let u := (t.reverse.dropWhile (fun c => !(c = cbC))).reverse
  if 2 ≤ u.length then some u else none

/-- Python iteration over a decoded JSON value, as used by the for loop over
`red_flags`: lists yield their elements, strings their characters, dicts
their keys; every other value raises TypeError.  (Duplicate keys of a dict
occur at most once; the refinement of key order for duplicate keys is not
modelled, and no property depends on it.) -/
def pyIterFlags : Json → Except PyErr (List Json)
  | Json.arr xs => Except.ok xs
  | Json.str s => Except.ok (s.map (fun c => Json.str [c]))
  | Json.obj fields => Except.ok (((fields.map Prod.fst).eraseDups).map Json.str)
  | _ => Except.error PyErr.typeError

/-- Key of the simplified text field. -/
def simplifiedKey : PyStr := "simplified_text".toList

/-- Key of the red flag list field. -/
def redFlagsKey : PyStr := "red_flags".toList

/-- Key of the quote field. -/
def quoteKey : PyStr := "quote".toList

/-- Legacy key of the quote field. -/
def textKey : PyStr := "text".toList

/-- Key of the severity field. -/
def severityKey : PyStr := "severity".toList

/-- Key of the risk field. -/
def riskKey : PyStr := "risk".toList

/-- Legacy key of the severity field. -/
def riskLevelKey : PyStr := "risk_level".toList

/-- Key of the worst case field. -/
def worstKey : PyStr := "worst_case".toList

/-- The high severity level. -/
def highS : PyStr := "high".toList

/-- The medium severity level. -/
def mediumS : PyStr := "medium".toList

/-- The low severity level. -/
def lowS : PyStr := "low".toList

/-- The quote of one red-flag entry: the quote field when truthy, otherwise
the legacy text field (defaulting to the empty string), rendered with str()
and stripped — the source line
quote = str(f.get(quote) or f.get(text, empty)).strip(). -/
def quoteOf (fields : List (PyStr × Json)) : PyStr :=
  pyStrip (pyStrJson (if pyTruthyOpt (jGetObj fields quoteKey)
    then jGetD fields quoteKey Json.null
    else jGetD fields textKey (Json.str [])))

/-- The risk of one entry: str of the risk field, stripped. -/
def riskOf (fields : List (PyStr × Json)) : PyStr :=
  pyStrip (pyStrJson (jGetD fields riskKey (Json.str [])))

/-- The worst case of one entry: str of the worst_case field, stripped. -/
def worstOf (fields : List (PyStr × Json)) : PyStr :=
  pyStrip (pyStrJson (jGetD fields worstKey (Json.str [])))

/-- The severity value of one entry before coercion: the severity field when
truthy, otherwise the legacy risk_level field defaulting to low — the
source line severity = f.get(severity) or f.get(risk_level, low). -/
def severitySource (fields : List (PyStr × Json)) : Json :=
  if pyTruthyOpt (jGetObj fields severityKey)
  then jGetD fields severityKey Json.null
  else jGetD fields riskLevelKey (Json.str lowS)

/-- The set-membership coercion of the source: a severity value outside the
three valid levels becomes low.  Only applied to hashable values; lists and
dicts raise TypeError in the membership test before this point. -/
def coerceSeverity : Json → PyStr
  | Json.str s => if s = highS ∨ s = mediumS ∨ s = lowS then s else lowS
  | _ => lowS

/-- True when the membership test on the entry severity value cannot raise:
the value is not a list and not a dict (the two unhashable decoded shapes).
Entries that are not dicts are skipped before the test, so they never
raise. -/
def sevIsHashable : Json → Bool
  | Json.obj fields =>
    match severitySource fields with
    | Json.arr _ => false
    | Json.obj _ => false
    | _ => true
  | _ => true

/-- The for loop of `_parse_llm_response` over the red-flag entries:
non-dict entries are skipped, entries with an empty quote are skipped, an
unhashable severity value raises TypeError in the membership test, and the
remaining entries are collected in input order. -/
def collectFlags : List Json → Except PyErr (List RedFlag)
  | [] => Except.ok []
  | f :: fs =>
    match f with
    | Json.obj fields =>
      if quoteOf fields = [] then collectFlags fs
      else
        match severitySource fields with
        | Json.arr _ => Except.error PyErr.typeError
        | Json.obj _ => Except.error PyErr.typeError
        | sv =>
          match collectFlags fs with
          | Except.error e => Except.error e
          | Except.ok rest =>
            Except.ok (RedFlag.mk (quoteOf fields) (riskOf fields)
              (coerceSeverity sv) (worstOf fields) :: rest)
    | _ => collectFlags fs

/-- Lines 144 through 167 of the source: read the red_flags value
(defaulting to an empty list), iterate over it and run the entry loop. -/
def extractedRedFlags (fields : List (PyStr × Json)) : Except PyErr (List RedFlag) :=
  match pyIterFlags (jGetD fields redFlagsKey (Json.arr [])) with
  | Except.error e => Except.error e
  | Except.ok items => collectFlags items

/-- str of the simplified_text field (defaulting to the empty string),
stripped. -/
def simplifiedOf (fields : List (PyStr × Json)) : PyStr :=
  pyStrip (pyStrJson (jGetD fields simplifiedKey (Json.str [])))

/-- `SimplyLegal_main._parse_llm_response`: clean fences, locate a brace
span, decode it, validate and coerce the fields; fall back to the whole
raw argument with no flags when the span is missing, the decode fails, or
the simplified text is empty.  The try block catches only JSONDecodeError
and ValueError, so the TypeError raised by iterating a non-sequence
red_flags value or by an unhashable severity escapes as an error. -/
def _parse_llm_response (raw : PyStr) : Except PyErr ParsedResult :=
  match extractBraceSpan (cleanedOf raw) with
  | some span =>
    match jsonLoads span with
    | some (Json.obj fields) =>
      match extractedRedFlags fields with
      | Except.error e => Except.error e
      | Except.ok flags =>
        if simplifiedOf fields ≠ []
        then Except.ok { simplified_text := simplifiedOf fields, red_flags := flags }
        else Except.ok { simplified_text := raw, red_flags := [] }
    | some _ => Except.error PyErr.attributeError
    | none => Except.ok { simplified_text := raw, red_flags := [] }
  | none => Except.ok { simplified_text := raw, red_flags := [] }

/-! ## Orchestrator (SimplyLegal_main in src/backend/services/llm_tts.py)

The provider backends perform network requests; each is embedded as an
oracle of type PyStr to Except PyErr PyStr supplied by the caller, and the
speech engine as an oracle from text to audio bytes.  Selecting Groq or
Ollama only changes which oracle is in use, which is outside the verified
properties. -/

/-- Split at the first occurrence of `pat`: returns the part before it and
the part after it, or none when `pat` does not occur. -/
def splitFirst (pat : PyStr) (s : PyStr) : Option (PyStr × PyStr) :=
  match s with
  | [] => if pat = [] then some ([], []) else none
  | c :: rest =>
    if pat.isPrefixOf (c :: rest) then some ([], (c :: rest).drop pat.length)
    else
      match splitFirst pat rest with
      | some pq => some (c :: pq.1, pq.2)
      | none => none

/-- The think tag opener. -/
def thinkOpen : PyStr := "<think>".toList

/-- The think tag closer. -/
def thinkClose : PyStr := "</think>".toList

/-- The scan of the non-greedy think-block pattern, fuelled for structural
recursion (each removal consumes at least the two tags, so the wrapper
always supplies enough fuel): each opening tag is paired with the nearest
following closing tag and the block is removed; an opening tag with no
closing tag after it matches nothing. -/
def removeThinkAux : Nat → PyStr → PyStr
  | 0, s => s
  | f + 1, s =>
    match splitFirst thinkOpen s with
    | none => s
    | some pq =>
      match splitFirst thinkClose pq.2 with
      | none => s
      | some qr => pq.1 ++ removeThinkAux f qr.2

/-- re.sub of the non-greedy think-block pattern with the empty string. -/
def removeThinkBlocks (s : PyStr) : PyStr := removeThinkAux (s.length + 1) s

/-- `SimplyLegal_main._strip_think_tags`: remove reasoning blocks and strip
the remainder. -/
def _strip_think_tags (text : PyStr) : PyStr := pyStrip (removeThinkBlocks text)

/-- The orchestrator state: the busy flag set in `__init__`, the chunker
configuration, and the system prompt (the env override or the default; its
exact text is irrelevant to the verified properties, so it is a field). -/
structure SimplyLegal_main where
  is_busy : Bool
  system_prompt : PyStr
  chunker : TextChunker
deriving DecidableEq

/-- The prompt separator between the system prompt and the input text. -/
def promptSep : PyStr := "\n\n:: Input text:\n".toList

/-- The prompt built by `_ask_and_parse`. -/
def buildPrompt (sys input : PyStr) : PyStr := sys ++ promptSep ++ input

/-- Representative str() text of an exception (see the header note on
message fidelity). -/
def errStr : PyErr → PyStr
  | PyErr.typeError => "TypeError".toList
  | PyErr.attributeError => "AttributeError".toList
  | PyErr.valueError msg => msg
  | PyErr.timeoutError => "TimeoutError".toList
  | PyErr.connectionError => "ConnectionError".toList
  | PyErr.exception msg => msg

/-- The except clauses of `_ask_and_parse`: a timeout and a connection
failure get fixed user-facing messages, anything else is wrapped in a
generic processing error. -/
def wrapAskError : PyErr → PyErr
  | PyErr.timeoutError =>
    PyErr.exception ("LLM service timed out. Please try again.".toList)
  | PyErr.connectionError =>
    PyErr.exception ("Unable to connect to LLM service. Please check the service is running.".toList)
  | e => PyErr.exception ("Error processing text: ".toList ++ errStr e)

/-- `SimplyLegal_main._ask_and_parse`: set the busy flag, build the prompt,
call the provider, strip reasoning tags, normalize; every raised exception
is wrapped by the except clauses, and the finally block clears the busy
flag on every path.  The third component records each provider call
together with the busy-flag value at the moment of the call. -/
def _ask_and_parse (self : SimplyLegal_main) (provider : PyStr → Except PyErr PyStr)
    (input_text : PyStr) :
    Except PyErr ParsedResult × SimplyLegal_main × List (Bool × PyStr) :=
  let busy := { self with is_busy := true }
  let prompt := buildPrompt self.system_prompt input_text
  let outcome : Except PyErr ParsedResult :=
    match provider prompt with
    | Except.ok raw =>
      match _parse_llm_response (_strip_think_tags raw) with
      | Except.ok r => Except.ok r
      | Except.error e => Except.error (wrapAskError e)
    | Except.error e => Except.error (wrapAskError e)
  (outcome, { busy with is_busy := false }, [(busy.is_busy, prompt)])

/-- The message raised by `tts_to_bytes` on empty input (verbatim from the
source). -/
def ttsEmptyMsg : PyStr := "Cannot generate audio from empty text".toList

/-- `SimplyLegal_main.tts_to_bytes`: raise ValueError on empty or
whitespace-only text, otherwise run the engine (an external oracle; the
temp-file handling around it is I/O and outside the model); an engine
failure is wrapped in a generic Exception by the except clause. -/
def tts_to_bytes (engine : PyStr → Except PyErr (List Nat)) (text : PyStr) :
    Except PyErr (List Nat) :=
  if text = [] ∨ pyStrip text = [] then Except.error (PyErr.valueError ttsEmptyMsg)
  else
    match engine text with
    | Except.ok audio => Except.ok audio
    | Except.error e =>
      Except.error (PyErr.exception ("Failed to generate audio: ".toList ++ errStr e))

/-- A pipeline failure: the raised error, together with the chunk index
(1-based, as in the source log line) when the failure happened inside the
per-chunk loop. -/
structure PipeFailure where
  atChunk : Option Nat
  err : PyErr
deriving DecidableEq

/-- The final dict of `process_text`. -/
structure PipelineResult where
  text : PyStr
  red_flags : List RedFlag
  audio : List Nat
  chunks_processed : Nat
deriving DecidableEq

/-- The per-chunk loop of `process_text`: chunks are processed in order; the
first chunk whose `_ask_and_parse` raises aborts the loop, recording its
index; otherwise the simplified parts and the concatenated flags are
returned.  The provider oracle takes the 1-based call index so that
distinct calls can behave differently. -/
def processChunks (provider : Nat → PyStr → Except PyErr PyStr)
    (self : SimplyLegal_main) (chunks : List PyStr) (i : Nat) :
    Except PipeFailure (List PyStr × List RedFlag) × SimplyLegal_main :=
  match chunks with
  | [] => (Except.ok ([], []), self)
  | c :: cs =>
    let step := _ask_and_parse self (provider i) c
    match step.1 with
    | Except.error e => (Except.error (PipeFailure.mk (some i) e), step.2.1)
    | Except.ok pr =>
      match processChunks provider step.2.1 cs (i + 1) with
      | (Except.error f, st2) => (Except.error f, st2)
      | (Except.ok parts, st2) =>
        (Except.ok (pr.simplified_text :: parts.1, pr.red_flags ++ parts.2), st2)

/-- `SimplyLegal_main.process_text`: chunk, translate each chunk in order,
merge with the default separator, synthesize audio, and return the final
dict.  A failing chunk aborts immediately with no partial result; a
synthesis failure propagates unchanged. -/
def process_text (self : SimplyLegal_main) (provider : Nat → PyStr → Except PyErr PyStr)
    (engine : PyStr → Except PyErr (List Nat)) (input_text : PyStr) :
    Except PipeFailure PipelineResult × SimplyLegal_main :=
  let chunks := chunk_text self.chunker input_text
  match processChunks provider self chunks 1 with
  | (Except.error f, st2) => (Except.error f, st2)
  | (Except.ok parts, st2) =>
    let simplified := merge_chunks parts.1 defaultSeparator
    match tts_to_bytes engine simplified with
    | Except.error e => (Except.error (PipeFailure.mk none e), st2)
    | Except.ok audio =>
      (Except.ok (PipelineResult.mk simplified parts.2 audio chunks.length), st2)

/-! ## Computable mirrors of the splitters

splitParasAux and splitSentencesAux are defined by well-founded recursion,
which the kernel does not reduce; the fuelled mirrors below compute the
same values (the two equivalence theorems) and are used to evaluate the
splitters on the concrete inputs of witnesses and counterexamples. -/

/-- Fuelled mirror of splitParasAux. -/
def splitParasFuel : Nat → List Char → List Char → List (List Char)
  | 0, _, acc => [acc.reverse]
  | _ + 1, [], acc => [acc.reverse]
  | f + 1, c :: rest, acc =>
    if c = '\n' ∧ firstIsNl rest then
      acc.reverse :: splitParasFuel f (rest.dropWhile (fun d => d = '\n')) []
    else
      splitParasFuel f rest (c :: acc)

/-- The mirror computes splitParasAux whenever the fuel exceeds the input
length. -/
theorem splitParasFuel_eq (s acc : List Char) :
    ∀ fuel, s.length < fuel → splitParasFuel fuel s acc = splitParasAux s acc := by
  induction s, acc using splitParasAux.induct with
  | case1 acc =>
    intro fuel hf
    cases fuel with
    | zero => omega
    | succ f => simp [splitParasFuel, splitParasAux]
  | case2 acc c tail hcond ih =>
    intro fuel hf
    cases fuel with
    | zero => omega
    | succ f =>
      have h1 := dropWhile_length_le (fun d => decide (d = '\n')) tail
      simp only [List.length_cons] at hf
      simp only [splitParasFuel, splitParasAux, if_pos hcond]
      rw [ih f (by omega)]
  | case3 acc c tail hcond ih =>
    intro fuel hf
    cases fuel with
    | zero => omega
    | succ f =>
      simp only [List.length_cons] at hf
      simp only [splitParasFuel, splitParasAux, if_neg hcond]
      rw [ih f (by omega)]

/-- splitParagraphs through the computable mirror. -/
theorem splitParagraphs_eq_fuel (s : List Char) :
    splitParagraphs s = splitParasFuel (s.length + 1) s [] :=
  (splitParasFuel_eq s [] _ (by omega)).symm

/-- Fuelled mirror of splitSentencesAux. -/
def splitSentencesFuel : Nat → List Char → List Char → List (List Char)
  | 0, _, acc => [acc.reverse]
  | _ + 1, [], acc => [acc.reverse]
  | f + 1, c :: rest, acc =>
    if boundaryChar c ∧ firstIsWs rest then
      (acc.reverse ++ [c]) :: splitSentencesFuel f (rest.dropWhile isPyWs) []
    else
      splitSentencesFuel f rest (c :: acc)

/-- The mirror computes splitSentencesAux whenever the fuel exceeds the
input length. -/
theorem splitSentencesFuel_eq (s acc : List Char) :
    ∀ fuel, s.length < fuel → splitSentencesFuel fuel s acc = splitSentencesAux s acc := by
  induction s, acc using splitSentencesAux.induct with
  | case1 acc =>
    intro fuel hf
    cases fuel with
    | zero => omega
    | succ f => simp [splitSentencesFuel, splitSentencesAux]
  | case2 acc c tail hcond ih =>
    intro fuel hf
    cases fuel with
    | zero => omega
    | succ f =>
      have h1 := dropWhile_length_le isPyWs tail
      simp only [List.length_cons] at hf
      simp only [splitSentencesFuel, splitSentencesAux, if_pos hcond]
      rw [ih f (by omega)]
  | case3 acc c tail hcond ih =>
    intro fuel hf
    cases fuel with
    | zero => omega
    | succ f =>
      simp only [List.length_cons] at hf
      simp only [splitSentencesFuel, splitSentencesAux, if_neg hcond]
      rw [ih f (by omega)]

/-- splitSentences through the computable mirror. -/
theorem splitSentences_eq_fuel (s : List Char) :
    splitSentences s = splitSentencesFuel (s.length + 1) s [] :=
  (splitSentencesFuel_eq s [] _ (by omega)).symm

/-! ## Claim C4: chunk sizes -/

/-- True when the list contains, somewhere inside it, a sentence boundary:
a period, exclamation mark or question mark immediately followed by a
whitespace character.  A chunk without such a pair is a single sentence in
the sense of the splitting regex. -/
def hasSentenceBoundaryPair : List Char → Bool
  | a :: b :: rest => (boundaryChar a && isPyWs b) || hasSentenceBoundaryPair (b :: rest)
  | _ => false

/-- Whether appending one character to a list creates a boundary pair at the
junction. -/
def lastBoundaryPair (xs : List Char) (y : Char) : Bool :=
  match xs.getLast? with
  | some x => boundaryChar x && isPyWs y
  | none => false

/-- Lists of at most one element have no boundary pair. -/
theorem hasPair_short (l : List Char) (h : l.length ≤ 1) :
    hasSentenceBoundaryPair l = false := by
  cases l with
  | nil => rfl
  | cons a t =>
    cases t with
    | nil => rfl
    | cons b u => simp at h

/-- Taking one element keeps the length at most one. -/
theorem take_one_length_le (l : List Char) : (l.take 1).length ≤ 1 := by
  cases l <;> simp

/-- The one-element prefix has no boundary pair. -/
theorem hasPair_take_one (l : List Char) :
    hasSentenceBoundaryPair (l.take 1) = false :=
  hasPair_short _ (take_one_length_le l)

/-- Boundary pairs of a list extended by one character on the right: the
pairs already inside, plus possibly one at the junction. -/
theorem hasPair_append_one (xs : List Char) (y : Char) :
    hasSentenceBoundaryPair (xs ++ [y]) =
      (hasSentenceBoundaryPair xs || lastBoundaryPair xs y) := by
  induction xs with
  | nil => simp [hasSentenceBoundaryPair, lastBoundaryPair]
  | cons a t ih =>
    cases t with
    | nil => simp [hasSentenceBoundaryPair, lastBoundaryPair]
    | cons b u =>
      have e3 : hasSentenceBoundaryPair ((a :: b :: u) ++ [y])
          = ((boundaryChar a && isPyWs b) || hasSentenceBoundaryPair ((b :: u) ++ [y])) := rfl
      have e4 : hasSentenceBoundaryPair (a :: b :: u)
          = ((boundaryChar a && isPyWs b) || hasSentenceBoundaryPair (b :: u)) := rfl
      have e5 : lastBoundaryPair (a :: b :: u) y = lastBoundaryPair (b :: u) y := by
        simp [lastBoundaryPair, List.getLast?_cons_cons]
      rw [e3, ih, e4, e5, Bool.or_assoc]

/-- Every piece produced by the sentence splitter is free of internal
boundary pairs; the invariant is that the accumulated piece, extended by
the next input character, has no pair. -/
theorem splitSentencesAux_pieces (s acc : List Char)
    (H : hasSentenceBoundaryPair (acc.reverse ++ s.take 1) = false) :
    ∀ p ∈ splitSentencesAux s acc, hasSentenceBoundaryPair p = false := by
  revert H
  induction s, acc using splitSentencesAux.induct with
  | case1 acc =>
    intro H p hp
    simp only [splitSentencesAux, List.mem_singleton] at hp
    subst hp
    simpa using H
  | case2 acc c tail hcond ih =>
    intro H p hp
    simp only [splitSentencesAux, if_pos hcond, List.mem_cons] at hp
    rcases hp with hp | hp
    · subst hp
      simpa using H
    · exact ih (by simpa using hasPair_take_one (tail.dropWhile isPyWs)) p hp
  | case3 acc c tail hcond ih =>
    intro H p hp
    simp only [splitSentencesAux, if_neg hcond] at hp
    refine ih ?_ p hp
    have hbase : hasSentenceBoundaryPair (acc.reverse ++ [c]) = false := by
      simpa using H
    cases tail with
    | nil => simpa using hbase
    | cons r t =>
      have hjunction : (boundaryChar c && isPyWs r) = false := by
        by_cases hb : boundaryChar c = true
        · by_cases hw : isPyWs r = true
          · exact absurd ⟨hb, by simp [firstIsWs, hw]⟩ hcond
          · simp only [Bool.not_eq_true] at hw
            simp [hw]
        · simp only [Bool.not_eq_true] at hb
          simp [hb]
      show hasSentenceBoundaryPair ((c :: acc).reverse ++ (r :: t).take 1) = false
      have e2 : (c :: acc).reverse ++ (r :: t).take 1 = (acc.reverse ++ [c]) ++ [r] := by
        simp
      rw [e2, hasPair_append_one, hbase]
      simp [lastBoundaryPair, List.getLast?_concat, hjunction]

/-- Every chunk produced by the greedy packer is within the limit or is one
of the input sentences (hence boundary-free). -/
theorem packSentences_bounded (max : Nat) :
    ∀ (ss : List PyStr) (current : PyStr) (final : List PyStr),
      (∀ s ∈ ss, hasSentenceBoundaryPair s = false) →
      (current = [] ∨ current.length ≤ max ∨ hasSentenceBoundaryPair current = false) →
      (∀ p ∈ final, p.length ≤ max ∨ hasSentenceBoundaryPair p = false) →
      ∀ p ∈ packSentences max ss current final,
        p.length ≤ max ∨ hasSentenceBoundaryPair p = false := by
  intro ss
  induction ss with
  | nil =>
    intro current final _hss hcur hfin p hp
    simp only [packSentences] at hp
    split at hp
    · rcases List.mem_append.mp hp with h | h
      · exact hfin p h
      · rcases List.mem_singleton.mp h with rfl
        rcases hcur with hc | hc
        · simp_all
        · exact hc
    · exact hfin p hp
  | cons s ss ih =>
    intro current final hss hcur hfin p hp
    simp only [packSentences] at hp
    split at hp
    · rename_i hfit
      refine ih _ _ (fun t ht => hss t (List.mem_cons_of_mem _ ht)) ?_ hfin p hp
      split
      · right; left
        simp only [List.length_append, List.length_cons]
        omega
      · right; right
        exact hss s (List.mem_cons_self _ _)
    · refine ih _ _ (fun t ht => hss t (List.mem_cons_of_mem _ ht)) ?_ ?_ p hp
      · right; right
        exact hss s (List.mem_cons_self _ _)
      · split
        · rename_i hne
          intro q hq
          rcases List.mem_append.mp hq with h | h
          · exact hfin q h
          · rcases List.mem_singleton.mp h with rfl
            rcases hcur with hc | hc
            · exact absurd hc hne
            · exact hc
        · exact hfin

/-- Claim C4: for every text longer than the configured maximum with
chunking enabled, every chunk returned by chunk_text has length at most
max_chunk_size, except chunks that consist of a single sentence (no
internal period, exclamation mark or question mark followed by
whitespace), which are emitted whole and never subdivided. -/
theorem c4_chunk_size_bound (cfg : TextChunker) (text : PyStr)
    (hen : cfg.enable_chunking = true) (hlen : cfg.max_chunk_size < text.length) :
    ∀ c ∈ chunk_text cfg text,
      c.length ≤ cfg.max_chunk_size ∨ hasSentenceBoundaryPair c = false := by
  intro c hc
  unfold chunk_text at hc
  rw [if_neg (by push_neg; exact ⟨by simp [hen], by omega⟩)] at hc
  unfold _chunk_by_sentences at hc
  rcases List.mem_flatten.mp hc with ⟨piece, hpiece, hcp⟩
  rcases List.mem_map.mp hpiece with ⟨chunk, _hchunk, rfl⟩
  by_cases hsize : chunk.length ≤ cfg.max_chunk_size
  · rw [if_pos hsize] at hcp
    rcases List.mem_singleton.mp hcp with rfl
    exact Or.inl hsize
  · rw [if_neg hsize] at hcp
    refine packSentences_bounded cfg.max_chunk_size (splitSentences chunk) [] []
      ?_ (Or.inl rfl) (by simp) c hcp
    intro t ht
    exact splitSentencesAux_pieces chunk [] (by simpa using hasPair_take_one chunk) t ht

/-- Oversized single-sentence input used by the C4 witness. -/
def c4text : PyStr := "aaaaaaaaaa".toList

/-- Chunker configuration used by the C4 witness. -/
def c4cfg : TextChunker := TextChunker.mk 5 true

/-- Witness for c4_chunk_size_bound: a ten-character single-sentence text
with limit five is returned as one oversized boundary-free chunk. -/
theorem c4_witness : c4text.length ≤ 5 ∨ hasSentenceBoundaryPair c4text = false :=
  c4_chunk_size_bound c4cfg c4text rfl (by decide) c4text (by
    simp only [chunk_text, _chunk_by_sentences, _chunk_by_paragraphs,
      splitParagraphs_eq_fuel, splitSentences_eq_fuel]
    decide)

/-! ## Claim C8: no empty chunk -/

/-- Containing a non-whitespace character is preserved by reverse. -/
theorem containsNonWs_reverse (l : PyStr) :
    containsNonWs l.reverse = containsNonWs l := by
  unfold containsNonWs
  cases hl : l.any (fun c => !(isPyWs c)) with
  | true =>
    rcases List.any_eq_true.mp hl with ⟨x, hx, hp⟩
    exact List.any_eq_true.mpr ⟨x, List.mem_reverse.mpr hx, hp⟩
  | false =>
    rw [List.any_eq_false] at hl ⊢
    intro x hx
    exact hl x (List.mem_reverse.mp hx)

/-- A non-whitespace member witnesses containsNonWs. -/
theorem containsNonWs_of_mem (l : PyStr) (x : Char) (hx : x ∈ l)
    (hw : isPyWs x = false) : containsNonWs l = true := by
  simp only [containsNonWs, List.any_eq_true]
  exact ⟨x, hx, by simp [hw]⟩

/-- Stripping gives the empty string exactly when no character is
non-whitespace. -/
theorem pyStrip_eq_nil_iff (s : PyStr) :
    pyStrip s = [] ↔ containsNonWs s = false := by
  unfold pyStrip
  rw [List.reverse_eq_nil_iff, List.dropWhile_eq_nil_iff]
  constructor
  · intro h
    simp only [containsNonWs]
    rw [List.any_eq_false]
    intro x hx
    rcases List.mem_reverse.mpr hx with _
    by_cases hxd : x ∈ s.dropWhile isPyWs
    · simpa using h x (List.mem_reverse.mpr hxd)
    · have hsplit := List.takeWhile_append_dropWhile isPyWs s
      have : x ∈ s.takeWhile isPyWs ++ s.dropWhile isPyWs := by rw [hsplit]; exact hx
      rcases List.mem_append.mp this with h2 | h2
      · simpa using List.mem_takeWhile_imp h2
      · exact absurd h2 hxd
  · intro h x hx
    simp only [containsNonWs] at h
    rw [List.any_eq_false] at h
    have hxs : x ∈ s := by
      have hsplit := List.takeWhile_append_dropWhile isPyWs s
      have : x ∈ s.dropWhile isPyWs := List.mem_reverse.mp hx
      rw [← hsplit]
      exact List.mem_append.mpr (Or.inr this)
    simpa using h x hxs

/-- A stripped string is non-empty exactly when it contains a
non-whitespace character. -/
theorem pyStrip_ne_nil_iff (s : PyStr) :
    pyStrip s ≠ [] ↔ containsNonWs s = true := by
  rw [Ne, pyStrip_eq_nil_iff]
  cases containsNonWs s <;> simp

/-- The head of a dropWhile result fails the predicate. -/
theorem dropWhile_head_false (p : Char → Bool) (l : List Char) (c : Char) (t : List Char)
    (h : l.dropWhile p = c :: t) : p c = false := by
  induction l with
  | nil => simp [List.dropWhile] at h
  | cons a r ih =>
    by_cases hp : p a
    · rw [List.dropWhile_cons_of_pos hp] at h
      exact ih h
    · rw [List.dropWhile_cons_of_neg hp] at h
      cases h
      simp only [Bool.not_eq_true] at hp
      exact hp

/-- The last element of a dropWhile result is the last element of the whole
list. -/
theorem getLast?_dropWhile (p : Char → Bool) (l : List Char) (x : Char)
    (h : (l.dropWhile p).getLast? = some x) : l.getLast? = some x := by
  have hsplit := List.takeWhile_append_dropWhile p l
  calc l.getLast? = (l.takeWhile p ++ l.dropWhile p).getLast? := by rw [hsplit]
    _ = ((l.dropWhile p).getLast?).or ((l.takeWhile p).getLast?) := List.getLast?_append
    _ = some x := by rw [h]; rfl

/-- A list whose last element fails the predicate has a non-empty dropWhile
result. -/
theorem dropWhile_ne_nil_of_getLast (p : Char → Bool) (l : List Char) (x : Char)
    (hl : l.getLast? = some x) (hx : p x = false) : l.dropWhile p ≠ [] := by
  intro hnil
  rw [List.dropWhile_eq_nil_iff] at hnil
  have := hnil x (List.mem_of_mem_getLast? hl)
  rw [hx] at this
  exact Bool.noConfusion this

/-- A boundary character is not whitespace. -/
theorem boundary_not_ws (c : Char) (h : boundaryChar c = true) : isPyWs c = false := by
  simp only [boundaryChar, Bool.or_eq_true, decide_eq_true_eq] at h
  rcases h with (h | h) | h <;> subst h <;> decide

/-- Every piece produced by the sentence splitter contains a non-whitespace
character, provided the input starts and ends with non-whitespace (as the
stripped paragraphs do). -/
theorem splitSentencesAux_nonws (s acc : List Char)
    (h1 : acc = [] → s ≠ [] ∧ ∀ x, s.head? = some x → isPyWs x = false)
    (h2 : acc ≠ [] → containsNonWs acc = true)
    (h3 : ∀ x, s.getLast? = some x → isPyWs x = false) :
    ∀ p ∈ splitSentencesAux s acc, containsNonWs p = true := by
  revert h1 h2 h3
  induction s, acc using splitSentencesAux.induct with
  | case1 acc =>
    intro h1 h2 _h3 p hp
    simp only [splitSentencesAux, List.mem_singleton] at hp
    subst hp
    rw [containsNonWs_reverse]
    by_cases hacc : acc = []
    · exact absurd rfl (h1 hacc).1
    · exact h2 hacc
  | case2 acc c tail hcond ih =>
    intro _h1 _h2 h3 p hp
    simp only [splitSentencesAux, if_pos hcond, List.mem_cons] at hp
    have hctail : tail ≠ [] := by
      rcases hcond with ⟨_, hfw⟩
      cases tail with
      | nil => simp [firstIsWs] at hfw
      | cons r t => simp
    have htail_last : ∀ x, tail.getLast? = some x → isPyWs x = false := by
      intro x hx
      refine h3 x ?_
      cases tail with
      | nil => exact absurd rfl hctail
      | cons r t => rw [List.getLast?_cons_cons]; exact hx
    rcases hp with hp | hp
    · subst hp
      exact containsNonWs_of_mem _ c
        (List.mem_append.mpr (Or.inr (List.mem_singleton.mpr rfl)))
        (boundary_not_ws c hcond.1)
    · have hlastsome : ∃ y, tail.getLast? = some y := by
        have hs := List.getLast?_isSome.mpr hctail
        cases htl : tail.getLast? with
        | none => rw [htl] at hs; exact Bool.noConfusion hs
        | some y => exact ⟨y, rfl⟩
      rcases hlastsome with ⟨y, hy⟩
      have hne : tail.dropWhile isPyWs ≠ [] :=
        dropWhile_ne_nil_of_getLast isPyWs tail y hy (htail_last y hy)
      refine ih ?_ (fun h => absurd rfl h) ?_ p hp
      · intro _
        refine ⟨hne, ?_⟩
        intro x hx
        cases hdrop : tail.dropWhile isPyWs with
        | nil => exact absurd hdrop hne
        | cons d t2 =>
          rw [hdrop] at hx
          simp only [List.head?_cons, Option.some.injEq] at hx
          subst hx
          exact dropWhile_head_false isPyWs tail d t2 hdrop
      · intro x hx
        exact htail_last x (getLast?_dropWhile isPyWs tail x hx)
  | case3 acc c tail hcond ih =>
    intro h1 h2 h3 p hp
    simp only [splitSentencesAux, if_neg hcond] at hp
    refine ih (fun h => absurd h (by simp)) ?_ ?_ p hp
    · intro _
      by_cases hacc : acc = []
      · subst hacc
        refine containsNonWs_of_mem _ c (List.mem_singleton.mpr rfl) ?_
        exact (h1 rfl).2 c (by simp)
      · have hc2 := h2 hacc
        simp only [containsNonWs, List.any_eq_true] at hc2
        rcases hc2 with ⟨x, hx, hpx⟩
        exact containsNonWs_of_mem _ x (List.mem_cons_of_mem _ hx) (by simpa using hpx)
    · intro x hx
      cases tail with
      | nil => simp at hx
      | cons r t =>
        refine h3 x ?_
        rw [List.getLast?_cons_cons]
        exact hx

/-- Every chunk produced by the greedy packer contains a non-whitespace
character when the sentences do. -/
theorem packSentences_nonws (max : Nat) :
    ∀ (ss : List PyStr) (current : PyStr) (final : List PyStr),
      (∀ s ∈ ss, containsNonWs s = true) →
      (current = [] ∨ containsNonWs current = true) →
      (∀ p ∈ final, containsNonWs p = true) →
      ∀ p ∈ packSentences max ss current final, containsNonWs p = true := by
  intro ss
  induction ss with
  | nil =>
    intro current final _hss hcur hfin p hp
    simp only [packSentences] at hp
    split at hp
    · rcases List.mem_append.mp hp with h | h
      · exact hfin p h
      · rcases List.mem_singleton.mp h with rfl
        rcases hcur with hc | hc
        · simp_all
        · exact hc
    · exact hfin p hp
  | cons s ss ih =>
    intro current final hss hcur hfin p hp
    simp only [packSentences] at hp
    have hs1 : containsNonWs s = true := hss s (List.mem_cons_self _ _)
    split at hp
    · refine ih _ _ (fun t ht => hss t (List.mem_cons_of_mem _ ht)) ?_ hfin p hp
      right
      split
      · have : containsNonWs (' ' :: s) = true := by
          simp only [containsNonWs, List.any_eq_true] at hs1 ⊢
          rcases hs1 with ⟨x, hx, hpx⟩
          exact ⟨x, List.mem_cons_of_mem _ hx, hpx⟩
        rw [containsNonWs]
        rw [List.any_append]
        simp only [containsNonWs] at this
        rw [this]
        simp
      · exact hs1
    · refine ih _ _ (fun t ht => hss t (List.mem_cons_of_mem _ ht)) (Or.inr hs1) ?_ p hp
      split
      · intro q hq
        rcases List.mem_append.mp hq with h | h
        · exact hfin q h
        · rcases List.mem_singleton.mp h with rfl
          rcases hcur with hc | hc
          · rename_i hne
            exact absurd hc hne
          · exact hc
      · exact hfin

/-- Properties of a non-trivially stripped string: it contains a
non-whitespace character, and its first and last characters are
non-whitespace. -/
theorem pyStrip_ends (s : PyStr) :
    (∀ x, (pyStrip s).head? = some x → isPyWs x = false)
      ∧ (∀ x, (pyStrip s).getLast? = some x → isPyWs x = false) := by
  unfold pyStrip
  constructor
  · intro x hx
    rw [List.head?_reverse] at hx
    have hlast := getLast?_dropWhile isPyWs ((s.dropWhile isPyWs).reverse) x hx
    rw [List.getLast?_reverse] at hlast
    cases hdrop : s.dropWhile isPyWs with
    | nil => rw [hdrop] at hlast; simp at hlast
    | cons d t =>
      rw [hdrop] at hlast
      simp only [List.head?_cons, Option.some.injEq] at hlast
      subst hlast
      exact dropWhile_head_false isPyWs s d t hdrop
  · intro x hx
    rw [List.getLast?_reverse] at hx
    cases hdrop : (s.dropWhile isPyWs).reverse.dropWhile isPyWs with
    | nil => rw [hdrop] at hx; simp at hx
    | cons d t =>
      rw [hdrop] at hx
      simp only [List.head?_cons, Option.some.injEq] at hx
      subst hx
      exact dropWhile_head_false isPyWs ((s.dropWhile isPyWs).reverse) d t hdrop

/-- Claim C8: for every input that is non-empty after trimming, chunk_text
never emits a chunk that trims to empty. -/
theorem c8_no_empty_chunk (cfg : TextChunker) (text : PyStr)
    (h : pyStrip text ≠ []) :
    ∀ c ∈ chunk_text cfg text, pyStrip c ≠ [] := by
  intro c hc
  unfold chunk_text at hc
  split at hc
  · rcases List.mem_singleton.mp hc with rfl
    exact h
  · unfold _chunk_by_sentences at hc
    rcases List.mem_flatten.mp hc with ⟨piece, hpiece, hcp⟩
    rcases List.mem_map.mp hpiece with ⟨chunk, hchunk, rfl⟩
    unfold _chunk_by_paragraphs at hchunk
    rcases List.mem_filterMap.mp hchunk with ⟨para, _hpara, heq⟩
    simp only at heq
    split at heq
    · exact Option.noConfusion heq
    · rename_i hstrip
      injection heq with heq2
      subst heq2
      have hends := pyStrip_ends para
      have hcnw : containsNonWs (pyStrip para) = true := by
        cases hsp : pyStrip para with
        | nil => exact absurd hsp hstrip
        | cons d t =>
          refine containsNonWs_of_mem _ d (List.mem_cons_self _ _) ?_
          exact hends.1 d (by rw [hsp]; rfl)
      rw [pyStrip_ne_nil_iff]
      split at hcp
      · rcases List.mem_singleton.mp hcp with rfl
        exact hcnw
      · refine packSentences_nonws cfg.max_chunk_size (splitSentences (pyStrip para)) [] []
          ?_ (Or.inl rfl) (by simp) c hcp
        intro t ht
        exact splitSentencesAux_nonws (pyStrip para) []
          (fun _ => ⟨hstrip, hends.1⟩) (fun hne => absurd rfl hne) hends.2 t ht

/-- Input used by the C8 witness. -/
def c8text : PyStr := "ab. cd.".toList

/-- Chunker configuration used by the C8 witness. -/
def c8cfg : TextChunker := TextChunker.mk 5 true

/-- A chunk produced for the C8 witness input. -/
def c8chunk : PyStr := "ab.".toList

/-- Witness for c8_no_empty_chunk at a concrete input that is split by
sentences. -/
theorem c8_witness : pyStrip c8chunk ≠ [] :=
  c8_no_empty_chunk c8cfg c8text (by decide) c8chunk (by
    simp only [chunk_text, _chunk_by_sentences, _chunk_by_paragraphs,
      splitParagraphs_eq_fuel, splitSentences_eq_fuel]
    decide)

/-! ## Claim C5: round trip through merge after split

The whitespace-token content of a document: its maximal runs of
non-whitespace characters, in order.  Two documents with the same tokens
are equal up to whitespace normalization. -/

/-- A non-whitespace character. -/
def notWs (c : Char) : Bool := !(isPyWs c)

/-- The whitespace-separated tokens of a string, in order. -/
def wsTokens (s : List Char) : List (List Char) :=
  match s with
  | [] => []
  | c :: rest =>
    if isPyWs c then wsTokens rest
    else (c :: rest.takeWhile notWs) :: wsTokens (rest.dropWhile notWs)
termination_by s.length
decreasing_by
  all_goals simp only [List.length_cons]
  · exact Nat.lt_succ_self _
  · exact Nat.lt_succ_of_le (dropWhile_length_le _ _)

/-- Tokens of the empty string. -/
theorem wsTokens_nil : wsTokens [] = [] := by simp [wsTokens]

/-- A leading whitespace character contributes no token. -/
theorem wsTokens_cons_ws (c : Char) (rest : List Char) (h : isPyWs c = true) :
    wsTokens (c :: rest) = wsTokens rest := by
  rw [wsTokens]
  simp [h]

/-- A leading non-whitespace character starts a token. -/
theorem wsTokens_cons_nonws (c : Char) (rest : List Char) (h : isPyWs c = false) :
    wsTokens (c :: rest)
      = (c :: rest.takeWhile notWs) :: wsTokens (rest.dropWhile notWs) := by
  rw [wsTokens]
  simp [h]

/-- takeWhile stops at the first failing element, even through an append. -/
theorem takeWhile_append_not (p : Char → Bool) (w : Char) (hw : p w = false) :
    ∀ (xs ys : List Char), (xs ++ w :: ys).takeWhile p = xs.takeWhile p := by
  intro xs ys
  induction xs with
  | nil =>
    simp only [List.nil_append]
    rw [List.takeWhile_cons]
    simp [hw, List.takeWhile]
  | cons c t ih =>
    by_cases hc : p c
    · simp only [List.cons_append, List.takeWhile_cons_of_pos hc, ih]
    · simp only [List.cons_append, List.takeWhile_cons_of_neg hc]

/-- dropWhile keeps everything from the first failing element on, even
through an append. -/
theorem dropWhile_append_not (p : Char → Bool) (w : Char) (hw : p w = false) :
    ∀ (xs ys : List Char), (xs ++ w :: ys).dropWhile p = xs.dropWhile p ++ w :: ys := by
  intro xs ys
  induction xs with
  | nil =>
    simp only [List.nil_append]
    rw [List.dropWhile_cons_of_neg (by simp [hw])]
    simp [List.dropWhile]
  | cons c t ih =>
    by_cases hc : p c
    · simp only [List.cons_append, List.dropWhile_cons_of_pos hc, ih]
    · simp only [List.cons_append, List.dropWhile_cons_of_neg hc]

/-- Splitting at an interior whitespace character splits the token list. -/
theorem wsTokens_append_ws_aux (w : Char) (hw : isPyWs w = true) :
    ∀ (n : Nat) (a b : List Char), a.length ≤ n →
      wsTokens (a ++ w :: b) = wsTokens a ++ wsTokens b := by
  intro n
  induction n with
  | zero =>
    intro a b ha
    have han : a = [] := List.length_eq_zero.mp (Nat.le_antisymm ha (Nat.zero_le _))
    subst han
    simp only [List.nil_append, wsTokens_nil]
    exact wsTokens_cons_ws w b hw
  | succ n ih =>
    intro a b ha
    cases a with
    | nil =>
      simp only [List.nil_append, wsTokens_nil]
      exact wsTokens_cons_ws w b hw
    | cons c t =>
      simp only [List.length_cons] at ha
      by_cases hc : isPyWs c = true
      · rw [List.cons_append, wsTokens_cons_ws c _ hc, wsTokens_cons_ws c t hc]
        exact ih t b (by omega)
      · simp only [Bool.not_eq_true] at hc
        rw [List.cons_append, wsTokens_cons_nonws c _ hc, wsTokens_cons_nonws c t hc]
        have hnw : notWs w = false := by simp [notWs, hw]
        rw [takeWhile_append_not notWs w hnw t b, dropWhile_append_not notWs w hnw t b]
        rw [List.cons_append]
        congr 1
        exact ih (t.dropWhile notWs) b
          (Nat.le_trans (dropWhile_length_le _ _) (by omega))

/-- Splitting at an interior whitespace character splits the token list. -/
theorem wsTokens_append_ws (a : List Char) (w : Char) (b : List Char)
    (hw : isPyWs w = true) : wsTokens (a ++ w :: b) = wsTokens a ++ wsTokens b :=
  wsTokens_append_ws_aux w hw a.length a b (Nat.le_refl _)

/-- A pure-whitespace string has no tokens. -/
theorem wsTokens_all_ws (l : List Char) (h : ∀ c ∈ l, isPyWs c = true) :
    wsTokens l = [] := by
  induction l with
  | nil => exact wsTokens_nil
  | cons c t ih =>
    rw [wsTokens_cons_ws c t (h c (List.mem_cons_self _ _))]
    exact ih (fun x hx => h x (List.mem_cons_of_mem _ hx))

/-- A pure-whitespace prefix contributes no tokens. -/
theorem wsTokens_ws_lead (pre b : List Char) (h : ∀ c ∈ pre, isPyWs c = true) :
    wsTokens (pre ++ b) = wsTokens b := by
  induction pre with
  | nil => simp
  | cons c t ih =>
    rw [List.cons_append, wsTokens_cons_ws c _ (h c (List.mem_cons_self _ _))]
    exact ih (fun x hx => h x (List.mem_cons_of_mem _ hx))

/-- A pure-whitespace suffix contributes no tokens. -/
theorem wsTokens_ws_suffix (a suf : List Char) (h : ∀ c ∈ suf, isPyWs c = true) :
    wsTokens (a ++ suf) = wsTokens a := by
  cases suf with
  | nil => simp
  | cons w t =>
    rw [wsTokens_append_ws a w t (h w (List.mem_cons_self _ _))]
    rw [wsTokens_all_ws t (fun x hx => h x (List.mem_cons_of_mem _ hx))]
    simp

/-- Dropping leading whitespace keeps the tokens. -/
theorem wsTokens_dropWhile_ws (l : List Char) :
    wsTokens (l.dropWhile isPyWs) = wsTokens l := by
  conv_rhs => rw [← List.takeWhile_append_dropWhile isPyWs l]
  rw [wsTokens_ws_lead _ _ (fun c hc => List.mem_takeWhile_imp hc)]

/-- Stripping keeps the tokens. -/
theorem wsTokens_pyStrip (s : List Char) : wsTokens (pyStrip s) = wsTokens s := by
  have hsplit := List.takeWhile_append_dropWhile isPyWs ((s.dropWhile isPyWs).reverse)
  have key : s.dropWhile isPyWs
      = ((s.dropWhile isPyWs).reverse.dropWhile isPyWs).reverse
        ++ ((s.dropWhile isPyWs).reverse.takeWhile isPyWs).reverse := by
    have h2 := congrArg List.reverse hsplit
    rw [List.reverse_append, List.reverse_reverse] at h2
    exact h2.symm
  have hsuffix : wsTokens (pyStrip s
      ++ ((s.dropWhile isPyWs).reverse.takeWhile isPyWs).reverse)
      = wsTokens (pyStrip s) :=
    wsTokens_ws_suffix _ _
      (fun c hc => List.mem_takeWhile_imp (List.mem_reverse.mp hc))
  calc wsTokens (pyStrip s)
      = wsTokens (s.dropWhile isPyWs) := by
        rw [← hsuffix]
        unfold pyStrip
        rw [← key]
    _ = wsTokens s := wsTokens_dropWhile_ws s

/-- Tokens survive the newline-run drop after a paragraph cut. -/
theorem wsTokens_dropWhile_nl (l : List Char) :
    wsTokens (l.dropWhile (fun d => d = '\n')) = wsTokens l := by
  conv_rhs => rw [← List.takeWhile_append_dropWhile (fun d => decide (d = '\n')) l]
  refine (wsTokens_ws_lead _ _ ?_).symm
  intro c hc
  have hcc := List.mem_takeWhile_imp hc
  simp only [decide_eq_true_eq] at hcc
  subst hcc
  decide

/-- The paragraph splitter partitions the tokens. -/
theorem splitParasAux_tokens (s acc : List Char) :
    ((splitParasAux s acc).map wsTokens).flatten = wsTokens (acc.reverse ++ s) := by
  induction s, acc using splitParasAux.induct with
  | case1 acc =>
    simp [splitParasAux]
  | case2 acc c tail hcond ih =>
    obtain ⟨hc, hnl⟩ := hcond
    subst hc
    simp only [splitParasAux]
    split
    · simp only [List.map_cons, List.flatten_cons]
      rw [ih]
      simp only [List.reverse_nil, List.nil_append]
      rw [wsTokens_dropWhile_nl tail]
      rw [wsTokens_append_ws acc.reverse '\n' tail (by decide)]
    · rename_i hcond2
      simp [hnl] at hcond2
  | case3 acc c tail hcond ih =>
    simp only [splitParasAux, if_neg hcond]
    rw [ih]
    simp [List.append_assoc]

/-- The sentence splitter partitions the tokens. -/
theorem splitSentencesAux_tokens (s acc : List Char) :
    ((splitSentencesAux s acc).map wsTokens).flatten = wsTokens (acc.reverse ++ s) := by
  induction s, acc using splitSentencesAux.induct with
  | case1 acc =>
    simp [splitSentencesAux]
  | case2 acc c tail hcond ih =>
    cases tail with
    | nil => exact absurd hcond.2 (by simp [firstIsWs])
    | cons r t =>
      have hr : isPyWs r = true := by
        have := hcond.2
        simpa [firstIsWs] using this
      simp only [splitSentencesAux, if_pos hcond, List.map_cons, List.flatten_cons]
      rw [ih]
      simp only [List.reverse_nil, List.nil_append]
      rw [wsTokens_dropWhile_ws (r :: t)]
      rw [wsTokens_cons_ws r t hr]
      rw [show acc.reverse ++ c :: r :: t = (acc.reverse ++ [c]) ++ r :: t by simp]
      rw [wsTokens_append_ws (acc.reverse ++ [c]) r t hr]
  | case3 acc c tail hcond ih =>
    simp only [splitSentencesAux, if_neg hcond]
    rw [ih]
    simp [List.append_assoc]

/-- The greedy packer permutes no tokens and loses none. -/
theorem packSentences_tokens (max : Nat) :
    ∀ (ss : List PyStr) (current : PyStr) (final : List PyStr),
      ((packSentences max ss current final).map wsTokens).flatten
        = (final.map wsTokens).flatten ++ wsTokens current
          ++ (ss.map wsTokens).flatten := by
  intro ss
  induction ss with
  | nil =>
    intro current final
    simp only [packSentences]
    split
    · simp [List.map_append, List.flatten_append]
    · rename_i hne
      simp only [ne_eq, Decidable.not_not] at hne
      subst hne
      simp [wsTokens_nil]
  | cons s ss ih =>
    intro current final
    simp only [packSentences]
    split
    · rw [ih]
      split
      · rw [wsTokens_append_ws current ' ' s (by decide)]
        simp [List.append_assoc]
      · rename_i hne
        simp only [ne_eq, Decidable.not_not] at hne
        subst hne
        simp [wsTokens_nil, List.append_assoc]
    · rw [ih]
      split
      · simp [List.map_append, List.flatten_append, List.append_assoc, wsTokens_nil]
      · rename_i hne
        simp only [ne_eq, Decidable.not_not] at hne
        subst hne
        simp [wsTokens_nil, List.append_assoc]

/-- Joining with a non-empty pure-whitespace separator concatenates the
token lists. -/
theorem joinSep_tokens (w : Char) (wrest : PyStr)
    (hsep : ∀ c ∈ w :: wrest, isPyWs c = true) :
    ∀ pieces : List PyStr,
      wsTokens (joinSep (w :: wrest) pieces) = (pieces.map wsTokens).flatten := by
  intro pieces
  induction pieces with
  | nil => simp [joinSep, wsTokens_nil]
  | cons x xs ih =>
    cases xs with
    | nil => simp [joinSep]
    | cons y ys =>
      have hstep : joinSep (w :: wrest) (x :: y :: ys)
          = x ++ (w :: wrest) ++ joinSep (w :: wrest) (y :: ys) := rfl
      rw [hstep]
      rw [show x ++ (w :: wrest) ++ joinSep (w :: wrest) (y :: ys)
          = x ++ w :: (wrest ++ joinSep (w :: wrest) (y :: ys)) by simp]
      rw [wsTokens_append_ws x w _ (hsep w (List.mem_cons_self _ _))]
      rw [wsTokens_ws_lead wrest _ (fun c hc => hsep c (List.mem_cons_of_mem _ hc))]
      rw [ih]
      simp

/-- Dropping trimmed-to-empty chunks and stripping the others keeps the
tokens. -/
theorem tokens_filterMap_strip (chunks : List PyStr) :
    (((chunks.filterMap
        (fun chunk => let c := pyStrip chunk; if c = [] then none else some c)).map
          wsTokens).flatten)
      = (chunks.map wsTokens).flatten := by
  induction chunks with
  | nil => rfl
  | cons c cs ih =>
    by_cases hc : pyStrip c = []
    · have htok : wsTokens c = [] := by
        rw [← wsTokens_pyStrip c, hc, wsTokens_nil]
      simp [List.filterMap_cons, hc, ih, htok]
    · simp [List.filterMap_cons, hc, ih, wsTokens_pyStrip]

/-- One chunk of the sentence stage keeps its tokens, whether it is kept
whole or split and repacked. -/
theorem per_chunk_tokens (cfg : TextChunker) (c : PyStr) :
    (((if c.length ≤ cfg.max_chunk_size then [c]
        else packSentences cfg.max_chunk_size (splitSentences c) [] []).map
          wsTokens).flatten)
      = wsTokens c := by
  split
  · simp
  · rw [packSentences_tokens]
    simp only [List.map_nil, List.flatten_nil, wsTokens_nil, List.nil_append]
    have h6 := splitSentencesAux_tokens c []
    simpa using h6

/-- The sentence stage keeps the concatenated tokens. -/
theorem chunk_by_sentences_tokens (cfg : TextChunker) (chunks : List PyStr) :
    ((_chunk_by_sentences cfg chunks).map wsTokens).flatten
      = (chunks.map wsTokens).flatten := by
  unfold _chunk_by_sentences
  induction chunks with
  | nil => rfl
  | cons c cs ih =>
    simp only [List.map_cons, List.flatten_cons, List.map_append, List.flatten_append]
    rw [ih, per_chunk_tokens cfg c]

/-- The paragraph stage keeps the tokens of the whole text. -/
theorem chunk_by_paragraphs_tokens (text : PyStr) :
    ((_chunk_by_paragraphs text).map wsTokens).flatten = wsTokens text := by
  unfold _chunk_by_paragraphs
  rw [tokens_filterMap_strip]
  have h5 := splitParasAux_tokens (pyStrip text) []
  unfold splitParagraphs
  rw [h5]
  simp only [List.reverse_nil, List.nil_append]
  exact wsTokens_pyStrip text

/-- Claim C5 (amended): the merge of the chunks of a text has exactly the
whitespace-separated tokens of the original text, in order — the round
trip preserves content and order up to whitespace normalization. -/
theorem c5_token_round_trip (cfg : TextChunker) (text : PyStr) :
    wsTokens (merge_chunks (chunk_text cfg text) defaultSeparator) = wsTokens text := by
  have hsep : ∀ c ∈ ('\n' :: ['\n'] : PyStr), isPyWs c = true := by decide
  unfold chunk_text
  split
  · unfold merge_chunks defaultSeparator
    by_cases ht : pyStrip text = []
    · have hempty : List.filterMap (fun chunk => let q := pyStrip chunk;
          if q = [] then none else some q) [text] = [] := by
        simp [List.filterMap_cons, ht]
      rw [hempty]
      rw [show joinSep ('\n' :: ['\n']) [] = [] from rfl, wsTokens_nil]
      rw [← wsTokens_pyStrip text, ht, wsTokens_nil]
    · have hone : List.filterMap (fun chunk => let q := pyStrip chunk;
          if q = [] then none else some q) [text] = [pyStrip text] := by
        simp [List.filterMap_cons, ht]
      rw [hone]
      rw [show joinSep ('\n' :: ['\n']) [pyStrip text] = pyStrip text from rfl]
      exact wsTokens_pyStrip text
  · unfold merge_chunks defaultSeparator
    rw [joinSep_tokens '\n' ['\n'] hsep]
    rw [tokens_filterMap_strip]
    rw [chunk_by_sentences_tokens]
    exact chunk_by_paragraphs_tokens text

/-- Modelled from the claim C5 wording: the trimmed non-empty segments of a
document, in order — a segment being a maximal run between blank lines. -/
def docSegments (s : PyStr) : List PyStr :=
  (splitParagraphs s).filterMap
    (fun p => let q := pyStrip p; if q = [] then none else some q)

/-- Modelled from the claim C5 wording: the trimmed non-empty paragraphs
and sentences of the original text — each paragraph that fits the limit
taken whole, each oversized paragraph replaced by its individual trimmed
sentences. -/
def specParagraphSentences (cfg : TextChunker) (text : PyStr) : List PyStr :=
  ((splitParagraphs (pyStrip text)).map (fun para =>
    let p := pyStrip para
    if p = [] then []
    else if p.length ≤ cfg.max_chunk_size then [p]
    else (splitSentences p).filterMap
      (fun s => let q := pyStrip s; if q = [] then none else some q))).flatten

/-- Chunker configuration of the C5 counterexample. -/
def c5cfg : TextChunker := TextChunker.mk 10 true

/-- Input text of the C5 counterexample: one oversized paragraph of three
short sentences, two of which are greedily packed into one chunk. -/
def c5text : PyStr := "aa. bb. cc.".toList

/-- Counterexample to claim C5 as stated: after the round trip the document
has segments [aa. bb.] and [cc.] — the greedy packer grouped the first two
sentences into one segment — while the trimmed non-empty
paragraphs/sentences of the original are [aa.], [bb.], [cc.]; the two
lists differ, so the round trip does not reproduce the individual
paragraph/sentence segmentation, only the token content. -/
theorem c5_segments_counterexample :
    docSegments (merge_chunks (chunk_text c5cfg c5text) defaultSeparator)
      ≠ specParagraphSentences c5cfg c5text := by
  simp only [chunk_text, _chunk_by_sentences, _chunk_by_paragraphs, docSegments,
    specParagraphSentences, splitParagraphs_eq_fuel, splitSentences_eq_fuel]
  decide

/-! ## Claims C1, C6, C7: the normalizer -/

/-- Modelled from the claim C6 wording: the red flag extracted from one
entry — entries that are not object-shaped are dropped, the quote comes
from the quote field or the legacy text field and must be non-empty after
trimming, the severity comes from the severity field or the legacy
risk_level field and is coerced to low when missing or unrecognized, and
risk and worst_case default to the empty string. -/
def specRedFlagOf : Json → Option RedFlag
  | Json.obj fields =>
    if quoteOf fields = [] then none
    else some (RedFlag.mk (quoteOf fields) (riskOf fields)
      (coerceSeverity (severitySource fields)) (worstOf fields))
  | _ => none

/-- The red-flag invariant of the claim: non-empty quote and a severity
among the three valid levels. -/
def goodFlag (fl : RedFlag) : Bool :=
  (!fl.quote.isEmpty)
    && decide (fl.severity = highS ∨ fl.severity = mediumS ∨ fl.severity = lowS)

/-- The coerced severity is always one of the three valid levels. -/
theorem coerceSeverity_valid (sv : Json) :
    coerceSeverity sv = highS ∨ coerceSeverity sv = mediumS
      ∨ coerceSeverity sv = lowS := by
  cases sv with
  | str s =>
    simp only [coerceSeverity]
    split
    · rename_i hs
      rcases hs with hs | hs | hs
      · exact Or.inl hs
      · exact Or.inr (Or.inl hs)
      · exact Or.inr (Or.inr hs)
    · exact Or.inr (Or.inr rfl)
  | null => exact Or.inr (Or.inr rfl)
  | bool b => exact Or.inr (Or.inr rfl)
  | num n => exact Or.inr (Or.inr rfl)
  | arr xs => exact Or.inr (Or.inr rfl)
  | obj fields => exact Or.inr (Or.inr rfl)

/-- Every flag the claim-side extraction keeps satisfies the invariant. -/
theorem specRedFlagOf_good (items : List Json) :
    ((items.filterMap specRedFlagOf).all goodFlag) = true := by
  induction items with
  | nil => rfl
  | cons f fs ih =>
    rw [List.filterMap_cons]
    cases f with
    | obj fields =>
      by_cases hq : quoteOf fields = []
      · simp only [specRedFlagOf, if_pos hq]
        exact ih
      · simp only [specRedFlagOf, if_neg hq]
        rw [List.all_cons, ih, Bool.and_true]
        simp only [goodFlag, Bool.and_eq_true]
        constructor
        · cases hql : quoteOf fields with
          | nil => exact absurd hql hq
          | cons a t => rfl
        · simp only [decide_eq_true_eq]
          exact coerceSeverity_valid (severitySource fields)
    | null => exact ih
    | bool b => exact ih
    | num n => exact ih
    | str s => exact ih
    | arr xs => exact ih

/-- When every entry has a hashable severity value, the source loop raises
nothing and collects exactly the claim-side flags, in input order. -/
theorem collectFlags_eq_spec (items : List Json)
    (h : ∀ f ∈ items, sevIsHashable f = true) :
    collectFlags items = Except.ok (items.filterMap specRedFlagOf) := by
  induction items with
  | nil => rfl
  | cons f fs ih =>
    have hf := h f (List.mem_cons_self _ _)
    have hrest := ih (fun g hg => h g (List.mem_cons_of_mem _ hg))
    rw [List.filterMap_cons]
    cases f with
    | obj fields =>
      simp only [collectFlags, specRedFlagOf]
      split
      · exact hrest
      · simp only [sevIsHashable] at hf
        cases hsev : severitySource fields with
        | arr xs => rw [hsev] at hf; simp at hf
        | obj kvs2 => rw [hsev] at hf; simp at hf
        | null => rw [hrest]
        | bool b => rw [hrest]
        | num n => rw [hrest]
        | str s => rw [hrest]
    | null => exact hrest
    | bool b => exact hrest
    | num n => exact hrest
    | str s => exact hrest
    | arr xs => exact hrest

/-- Claim C6 (amended): for every response whose cleaned text contains a
brace span that decodes to an object with a non-empty simplified text and
a red_flags list in which no entry has an unhashable (list- or
dict-valued) effective severity, the normalizer returns the flags in input
order — quote from the quote or legacy text field, entries with empty
quotes or non-object shape dropped silently, severity coerced into the
three valid levels with default low, risk and worst_case defaulting to
empty — and every returned flag has a non-empty quote and a valid
severity. -/
theorem c6_flag_extraction (raw span : PyStr) (kvs : List (PyStr × Json))
    (items : List Json)
    (h1 : extractBraceSpan (cleanedOf raw) = some span)
    (h2 : jsonLoads span = some (Json.obj kvs))
    (h3 : simplifiedOf kvs ≠ [])
    (h4 : jGetD kvs redFlagsKey (Json.arr []) = Json.arr items)
    (h5 : ∀ f ∈ items, sevIsHashable f = true) :
    _parse_llm_response raw
      = Except.ok (ParsedResult.mk (simplifiedOf kvs) (items.filterMap specRedFlagOf))
      ∧ ((items.filterMap specRedFlagOf).all goodFlag) = true := by
  constructor
  · unfold _parse_llm_response
    simp only [h1, h2]
    unfold extractedRedFlags
    simp only [h4]
    have hiter : pyIterFlags (Json.arr items) = Except.ok items := rfl
    simp only [hiter, collectFlags_eq_spec items h5]
    rw [if_pos h3]
  · exact specRedFlagOf_good items

/-- Response used by the C6 witness: legacy field names, a non-dict entry,
an entry with a blank quote, a missing severity and an unrecognized
severity. -/
def c6wraw : PyStr := "\x7b\"simplified_text\": \"Plain.\", \"red_flags\": [\x7b\"text\": \"Keep all rights.\", \"risk_level\": \"high\"\x7d, 5, \x7b\"quote\": \"  \"\x7d, \x7b\"quote\": \"q2\"\x7d, \x7b\"quote\": \"q3\", \"severity\": \"HIGH\"\x7d]\x7d".toList

/-- The brace span of the C6 witness response. -/
def c6wspan : PyStr := (extractBraceSpan (cleanedOf c6wraw)).getD []

/-- The decoded object of the C6 witness response. -/
def c6wkvs : List (PyStr × Json) :=
  match jsonLoads c6wspan with
  | some (Json.obj kvs) => kvs
  | _ => []

/-- The red-flag entries of the C6 witness response. -/
def c6witems : List Json :=
  match jGetD c6wkvs redFlagsKey (Json.arr []) with
  | Json.arr xs => xs
  | _ => []

set_option maxRecDepth 16384 in
/-- Witness for c6_flag_extraction on the concrete legacy-schema response. -/
theorem c6_witness :
    _parse_llm_response c6wraw
      = Except.ok (ParsedResult.mk (simplifiedOf c6wkvs)
          (c6witems.filterMap specRedFlagOf))
      ∧ ((c6witems.filterMap specRedFlagOf).all goodFlag) = true :=
  c6_flag_extraction c6wraw c6wspan c6wkvs c6witems rfl rfl (by decide) rfl (by decide)

/-- Response of the C6 counterexample: a well-formed JSON object with a
non-empty simplified text and a red_flags list whose single entry has a
non-empty quote and a list-valued severity. -/
def c6craw : PyStr := "\x7b\"simplified_text\": \"x\", \"red_flags\": [\x7b\"quote\": \"q\", \"severity\": [\"high\"]\x7d]\x7d".toList

set_option maxRecDepth 16384 in
/-- Counterexample to claim C6 as stated: on this well-formed response the
normalizer does not return coerced flags — the membership test on the
unhashable list-valued severity raises TypeError (not caught by the except
clause for JSONDecodeError and ValueError), so the call raises instead of
returning. -/
theorem c6_severity_typeerror :
    _parse_llm_response c6craw = Except.error PyErr.typeError := rfl

/-- Claim C7 (amended): when no brace span is found, or the span does not
decode, or the decoded simplified text is empty or absent after trimming —
provided extracting the red-flag list does not itself raise — the
normalizer returns its whole argument (the reasoning-stripped raw text) as
the simplified text with no flags; red flags parsed from an object whose
simplified text is empty are discarded. -/
theorem c7_fallback_returns_raw (raw : PyStr)
    (h : extractBraceSpan (cleanedOf raw) = none
      ∨ (∃ span, extractBraceSpan (cleanedOf raw) = some span ∧ jsonLoads span = none)
      ∨ (∃ span kvs flags, extractBraceSpan (cleanedOf raw) = some span
          ∧ jsonLoads span = some (Json.obj kvs)
          ∧ simplifiedOf kvs = []
          ∧ extractedRedFlags kvs = Except.ok flags)) :
    _parse_llm_response raw = Except.ok (ParsedResult.mk raw []) := by
  unfold _parse_llm_response
  rcases h with h | ⟨span, hs, hn⟩ | ⟨span, kvs, flags, hs, hj, hsimpl, hflags⟩
  · rw [h]
  · simp only [hs, hn]
  · simp only [hs, hj, hflags]
    rw [if_neg (by simp [hsimpl])]

/-- Response used by the C7 witness: valid JSON with an empty simplified
text and a parsable red flag, which the fallback discards. -/
def c7wraw : PyStr := "\x7b\"simplified_text\": \"\", \"red_flags\": [\x7b\"quote\": \"q\"\x7d]\x7d".toList

/-- The brace span of the C7 witness response. -/
def c7wspan : PyStr := (extractBraceSpan (cleanedOf c7wraw)).getD []

/-- The decoded object of the C7 witness response. -/
def c7wkvs : List (PyStr × Json) :=
  match jsonLoads c7wspan with
  | some (Json.obj kvs) => kvs
  | _ => []

/-- The successfully extracted flags of the C7 witness response. -/
def c7wflags : List RedFlag :=
  match extractedRedFlags c7wkvs with
  | Except.ok fl => fl
  | _ => []

set_option maxRecDepth 16384 in
/-- Witness for c7_fallback_returns_raw: the empty-simplified-text case,
with the parsed red flag discarded. -/
theorem c7_witness : _parse_llm_response c7wraw = Except.ok (ParsedResult.mk c7wraw []) :=
  c7_fallback_returns_raw c7wraw
    (Or.inr (Or.inr ⟨c7wspan, c7wkvs, c7wflags, rfl, rfl, rfl, rfl⟩))

/-- Input of the C7 counterexample: a JSON object with no simplified_text
field and a non-iterable red_flags value. -/
def c7craw : PyStr := "\x7b\"red_flags\": 7\x7d".toList

set_option maxRecDepth 16384 in
/-- Counterexample to claim C7 as stated: simplified_text is absent, so the
claim demands the fallback result, but iterating the integer-valued
red_flags raises TypeError before the fallback is reached. -/
theorem c7_typeerror_counterexample :
    _parse_llm_response c7craw = Except.error PyErr.typeError := rfl

/-- Input on which the normalizer raises (claim C1): a well-formed JSON
object whose red_flags value is the integer 0. -/
def c1raw : PyStr := "\x7b\"simplified_text\": \"x\", \"red_flags\": 0\x7d".toList

set_option maxRecDepth 16384 in
/-- Claim C1 (code bug): the normalizer is not total.  On a parsed object
whose red_flags value is not iterable, the for loop raises TypeError,
which the except clause (catching only JSONDecodeError and ValueError)
does not absorb — contradicting the specified guarantee that the fallback
path never lets the normalizer raise. -/
theorem c1_typeerror_behavior :
    _parse_llm_response c1raw = Except.error PyErr.typeError := rfl

/-! ## Claims C2, C3, C9, C10: the orchestrator -/

/-- System prompt used by the C2 counterexample. -/
def c2sys : PyStr := "SYS".toList

/-- An orchestrator instance already marked busy. -/
def c2busySelf : SimplyLegal_main :=
  SimplyLegal_main.mk true c2sys (TextChunker.mk 1000 true)

/-- A provider oracle that always succeeds. -/
def c2okProvider : PyStr → Except PyErr PyStr := fun _ => Except.ok ("ok".toList)

/-- Input of the C2 counterexample. -/
def c2input : PyStr := "hi".toList

/-- Counterexample to claim C2 as stated: invoking _ask_and_parse on an
instance whose is_busy flag is already true still proceeds to issue a
provider call (the call trace has one entry) — the flag is written but
never consulted, so no rejection or deferral happens. -/
theorem c2_counterexample :
    ((_ask_and_parse c2busySelf c2okProvider c2input).2.2).length = 1 := rfl

/-- Claim C2 (amended): while a request is in progress the instance marks
itself busy — the provider call is always issued with is_busy = true and
the flag is cleared afterwards — but a second request on a busy instance
is not rejected or deferred: from every starting state, busy or not,
exactly one provider call is issued. -/
theorem c2_busy_flag_behavior (self : SimplyLegal_main)
    (provider : PyStr → Except PyErr PyStr) (input : PyStr) :
    (_ask_and_parse self provider input).2.2
        = [(true, buildPrompt self.system_prompt input)]
      ∧ ((_ask_and_parse self provider input).2.1).is_busy = false :=
  ⟨rfl, rfl⟩

/-- Claim C10: the finally block restores the flag — after every call to
_ask_and_parse, whether it returns a parsed result or a wrapped exception,
the instance is no longer busy. -/
theorem c10_busy_restored (self : SimplyLegal_main)
    (provider : PyStr → Except PyErr PyStr) (input : PyStr) :
    ((_ask_and_parse self provider input).2.1).is_busy = false := rfl

/-- The outcome of _ask_and_parse does not depend on the busy flag. -/
theorem ask_fst_busy (self : SimplyLegal_main) (b : Bool)
    (provider : PyStr → Except PyErr PyStr) (input : PyStr) :
    (_ask_and_parse { self with is_busy := b } provider input).1
      = (_ask_and_parse self provider input).1 := rfl

/-- Whether an Except value is an error. -/
def exceptIsError {e a : Type} (r : Except e a) : Bool :=
  match r with
  | Except.error _ => true
  | Except.ok _ => false

/-- When some chunk in the list fails, the per-chunk loop stops with an
error carrying a chunk index. -/
theorem processChunks_error_of_fail (provider : Nat → PyStr → Except PyErr PyStr)
    (chunks : List PyStr) :
    ∀ (self : SimplyLegal_main) (i0 : Nat),
      (∃ k, ∃ hk : k < chunks.length,
        exceptIsError ((_ask_and_parse self (provider (i0 + k)) (chunks.get ⟨k, hk⟩)).1)
          = true) →
      ∃ j e, (processChunks provider self chunks i0).1
        = Except.error (PipeFailure.mk (some j) e) := by
  induction chunks with
  | nil =>
    rintro self i0 ⟨k, hk, _⟩
    simp at hk
  | cons c cs ih =>
    rintro self i0 ⟨k, hk, hfail⟩
    cases hstep : (_ask_and_parse self (provider i0) c).1 with
    | error e =>
      refine ⟨i0, e, ?_⟩
      simp only [processChunks, hstep]
    | ok pr =>
      cases k with
      | zero =>
        simp only [Nat.add_zero] at hfail
        rw [show (c :: cs).get ⟨0, hk⟩ = c from rfl] at hfail
        rw [hstep] at hfail
        simp [exceptIsError] at hfail
      | succ k2 =>
        have hk2 : k2 < cs.length := by simpa using hk
        have hfail2 : exceptIsError ((_ask_and_parse { self with is_busy := false }
            (provider (i0 + 1 + k2)) (cs.get ⟨k2, hk2⟩)).1) = true := by
          rw [ask_fst_busy]
          rw [show i0 + 1 + k2 = i0 + (k2 + 1) by omega]
          have hget : (c :: cs).get ⟨k2 + 1, hk⟩ = cs.get ⟨k2, hk2⟩ := rfl
          rw [← hget]
          exact hfail
        obtain ⟨j, e, hje⟩ := ih { self with is_busy := false } (i0 + 1)
          ⟨k2, hk2, hfail2⟩
        refine ⟨j, e, ?_⟩
        simp only [processChunks, hstep]
        cases hP : processChunks provider { self with is_busy := false } cs (i0 + 1) with
        | mk res st =>
          rw [hP] at hje
          simp only at hje
          subst hje
          rw [show (_ask_and_parse self (provider i0) c).2.1
              = { self with is_busy := false } from rfl, hP]

/-- Whether a pipeline outcome is a failure that carries a chunk index. -/
def failsAtChunk (r : Except PipeFailure PipelineResult) : Bool :=
  match r with
  | Except.error f => f.atChunk.isSome
  | Except.ok _ => false

/-- Claim C3: if the provider call for any chunk raises, process_text
propagates the failure — the outcome is an error carrying a chunk index
for diagnostics, never a PipelineResult, and no merged partial value is
produced for the caller. -/
theorem c3_chunk_failure_aborts (self : SimplyLegal_main)
    (provider : Nat → PyStr → Except PyErr PyStr)
    (engine : PyStr → Except PyErr (List Nat)) (input : PyStr) (k : Nat)
    (hk : k < (chunk_text self.chunker input).length)
    (hfail : exceptIsError ((_ask_and_parse self (provider (1 + k))
        ((chunk_text self.chunker input).get ⟨k, hk⟩)).1) = true) :
    failsAtChunk (process_text self provider engine input).1 = true := by
  obtain ⟨j, e, hje⟩ := processChunks_error_of_fail provider
    (chunk_text self.chunker input) self 1 ⟨k, hk, hfail⟩
  simp only [process_text]
  cases hP : processChunks provider self (chunk_text self.chunker input) 1 with
  | mk res st =>
    rw [hP] at hje
    simp only at hje
    subst hje
    simp [failsAtChunk]

/-- Orchestrator instance of the C3 witness. -/
def c3self : SimplyLegal_main :=
  SimplyLegal_main.mk false ("SYS3".toList) (TextChunker.mk 1000 true)

/-- A provider oracle that always fails with a connection error. -/
def c3provider : Nat → PyStr → Except PyErr PyStr :=
  fun _ _ => Except.error PyErr.connectionError

/-- A speech-engine oracle (never reached in the C3 witness). -/
def c3engine : PyStr → Except PyErr (List Nat) := fun _ => Except.ok []

/-- Input of the C3 witness. -/
def c3input : PyStr := "hi".toList

/-- Witness for c3_chunk_failure_aborts: the single chunk fails, so the
pipeline reports a chunk-indexed error. -/
theorem c3_witness :
    failsAtChunk (process_text c3self c3provider c3engine c3input).1 = true :=
  c3_chunk_failure_aborts c3self c3provider c3engine c3input 0 (by decide) (by decide)

/-- Claim C9: audio synthesis rejects empty or whitespace-only text with
the ValueError from the source, and the orchestrator propagates every
synthesis failure — when all chunks succeed and tts_to_bytes fails on the
merged text, process_text returns that error (with no chunk index) and no
PipelineResult. -/
theorem c9_empty_text_synthesis_error :
    (∀ (engine : PyStr → Except PyErr (List Nat)) (text : PyStr),
      pyStrip text = [] →
      tts_to_bytes engine text = Except.error (PyErr.valueError ttsEmptyMsg))
    ∧ (∀ (self : SimplyLegal_main) (provider : Nat → PyStr → Except PyErr PyStr)
        (engine : PyStr → Except PyErr (List Nat)) (input : PyStr)
        (parts : List PyStr) (flags : List RedFlag) (st2 : SimplyLegal_main)
        (e : PyErr),
      processChunks provider self (chunk_text self.chunker input) 1
          = (Except.ok (parts, flags), st2) →
      tts_to_bytes engine (merge_chunks parts defaultSeparator) = Except.error e →
      (process_text self provider engine input).1
          = Except.error (PipeFailure.mk none e)) := by
  constructor
  · intro engine text h
    unfold tts_to_bytes
    rw [if_pos (Or.inr h)]
  · intro self provider engine input parts flags st2 e h1 h2
    simp only [process_text]
    rw [h1]
    simp only [h2]

/-- A speech-engine oracle that always fails. -/
def c9engine : PyStr → Except PyErr (List Nat) := fun _ => Except.error PyErr.timeoutError

/-- Whitespace-only text for the C9 witness. -/
def c9wsText : PyStr := "  ".toList

/-- Orchestrator instance of the C9 witness. -/
def c9self : SimplyLegal_main :=
  SimplyLegal_main.mk false ("SYS9".toList) (TextChunker.mk 1000 true)

/-- A provider oracle returning a plain-text completion. -/
def c9provider : Nat → PyStr → Except PyErr PyStr :=
  fun _ _ => Except.ok ("resp".toList)

/-- Input of the C9 witness. -/
def c9input : PyStr := "hi".toList

/-- The wrapped engine failure of the C9 witness. -/
def c9err : PyErr :=
  PyErr.exception ("Failed to generate audio: ".toList ++ errStr PyErr.timeoutError)

/-- Witness for c9_empty_text_synthesis_error: the empty-text rejection at
whitespace input, and the propagation of a failing synthesis through
process_text. -/
theorem c9_witness :
    tts_to_bytes c9engine c9wsText = Except.error (PyErr.valueError ttsEmptyMsg)
    ∧ (process_text c9self c9provider c9engine c9input).1
        = Except.error (PipeFailure.mk none c9err) :=
  ⟨c9_empty_text_synthesis_error.1 c9engine c9wsText (by decide),
   c9_empty_text_synthesis_error.2 c9self c9provider c9engine c9input
     ["resp".toList] [] (SimplyLegal_main.mk false ("SYS9".toList) (TextChunker.mk 1000 true))
     c9err rfl rfl⟩
